import Mathlib

/-!
# Verification of the terraform-provider-keep resource codecs

Shallow embedding of the provider's data-normalization, CSV parsing,
client lookup, and response-decoding logic, with theorems settling the
specification claims about them.

Strings are modelled as `List Char` where character-level processing
matters (CSV text), and as Lean `String` elsewhere.  Go's
`map[string]interface{}` JSON values are modelled by the inductive
`JVal`/`JObj` types below, with JSON numbers carried as `Int`
(the claims only exercise integral payloads).
-/

set_option autoImplicit false

/-! ## Character classification and whitespace trimming

`isGoSpace` mirrors Go's `unicode.IsSpace`: the Latin-1 fast path
('\t', '\n', '\v', '\f', '\r', ' ', U+0085, U+00A0) plus the
White_Space code points outside Latin-1.
-/

def isGoSpace (c : Char) : Bool :=
  let n := c.toNat
  n == 0x09 || n == 0x0A || n == 0x0B || n == 0x0C || n == 0x0D ||
  n == 0x20 || n == 0x85 || n == 0xA0 ||
  n == 0x1680 || (0x2000 ≤ n && n ≤ 0x200A) ||
  n == 0x2028 || n == 0x2029 || n == 0x202F || n == 0x205F || n == 0x3000

/-- `strings.TrimLeftFunc(s, unicode.IsSpace)`: drop leading whitespace. -/
def trimLeft (l : List Char) : List Char := l.dropWhile isGoSpace

/-- `strings.TrimRightFunc(s, unicode.IsSpace)`: drop trailing whitespace. -/
def trimRight (l : List Char) : List Char := (l.reverse.dropWhile isGoSpace).reverse

/-- `strings.TrimSpace`: trim whitespace from both ends. -/
def trimSpace (l : List Char) : List Char := trimRight (trimLeft l)

/-! ## Line-ending replacement

`replaceCRLF` mirrors `strings.ReplaceAll(s, "\r\n", "\n")`: a single
left-to-right scan replacing each non-overlapping occurrence of
`"\r\n"` by `"\n"`.
-/

def replaceCRLF : List Char → List Char
  | [] => []
  | [c] => [c]
  | c₁ :: c₂ :: rest =>
    if c₁ = '\r' ∧ c₂ = '\n' then '\n' :: replaceCRLF rest
    else c₁ :: replaceCRLF (c₂ :: rest)

/-- The CSV normalization applied by the mapping-rule resource's
Create (resource_mapping_rule.go:349, 471), Read (:904) and Update
(:806) paths: `strings.ReplaceAll(strings.TrimSpace(v), "\r\n", "\n")`. -/
def normalizeCSV (l : List Char) : List Char := replaceCRLF (trimSpace l)

/-- Does the text contain an occurrence of `"\r\n"`? -/
def hasCRLF : List Char → Bool
  | [] => false
  | [_] => false
  | c₁ :: c₂ :: rest => (c₁ = '\r' && c₂ = '\n') || hasCRLF (c₂ :: rest)

/-- Does the text contain an occurrence of `"\r\r\n"`? -/
def hasCRRLF : List Char → Bool
  | c₁ :: c₂ :: c₃ :: rest =>
    (c₁ = '\r' && c₂ = '\r' && c₃ = '\n') || hasCRRLF (c₂ :: c₃ :: rest)
  | _ => false

/-! ### Fixed-point lemmas for trimming -/

/-- Every character that `l` can start with is not whitespace. -/
def headOK (l : List Char) : Prop :=
  ∀ c, l.head? = some c → isGoSpace c = false

/-- Every character that `l` can end with is not whitespace. -/
def lastOK (l : List Char) : Prop := headOK l.reverse

/-! ## Weakly-typed JSON values

Go's `json.Unmarshal` into `map[string]interface{}` / `[]interface{}`
produces dynamically-typed values: strings, numbers (always `float64`),
booleans, `nil`, arrays and objects.  JSON numbers are carried here as
`Int`; the decoding logic under verification only inspects type tags
and converts integral numbers.
-/

inductive JVal where
  | jstr (s : String)
  | jnum (n : Int)
  | jbool (b : Bool)
  | jnull
  | jarr (elems : List JVal)
  | jobj (fields : List (String × JVal))

/-- A decoded JSON object (`map[string]interface{}`; Go map keys are unique). -/
abbrev JObj := List (String × JVal)

def jlookup : JObj → String → Option JVal
  | [], _ => none
  | (k, v) :: rest, key => if k = key then some v else jlookup rest key

/-- `fmt.Sprint` on a dynamically-typed value.  The scalar cases mirror Go's
formatting of integral values; the rendering of composite values is not
modelled precisely (no claim depends on it). -/
def goSprint : JVal → String
  | .jstr s => s
  | .jnum n => toString n
  | .jbool b => cond b "true" "false"
  | .jnull => "<nil>"
  | .jarr _ => "[...]"
  | .jobj _ => "map[...]"

/-! ## Outcomes of Go code that may panic

A Go type assertion `v.(T)` without the comma-ok form panics when `v`
does not hold a `T` (including when `v` is `nil`), and calling
`err.Error()` on a `nil` error panics; `GoResult` makes those panics an
explicit outcome.
-/

inductive GoResult (α : Type) where
  | ok (a : α)
  | panicked
deriving DecidableEq

def GoResult.bind {α β : Type} : GoResult α → (α → GoResult β) → GoResult β
  | .ok a, f => f a
  | .panicked, _ => .panicked

/-- `v.(string)` — unchecked string assertion. -/
def assertString : Option JVal → GoResult String
  | some (.jstr s) => .ok s
  | _ => .panicked

/-- `v.(float64)` — unchecked number assertion. -/
def assertNumber : Option JVal → GoResult Int
  | some (.jnum n) => .ok n
  | _ => .panicked

/-! ## Client: mapping-rule lookup (client.go GetMappingRule, lines 420-488)

The transport results are inputs of the model: `directResp` is the
outcome of `GET /mapping/{id}` (raw bytes on success, the error string
otherwise); `decodeObj` is `json.Unmarshal` of those bytes into a JSON
object (stdlib behaviour, abstracted: `none` when the bytes are not a
JSON object); `listResp` is the decoded outcome of `GET /mapping`.
-/

inductive GetOutcome where
  | found (rule : JObj)
  | fail (msg : String)
  | nilPanic

def notFoundMsg (id : String) : String :=
  "mapping rule with ID " ++ id ++ " not found"

def listFailMsg (e : String) : String :=
  "failed to list mapping rules: " ++ e

/-- The fallback scan over the full list (client.go lines 459-487): rules
whose `id` field is not a string are skipped with a warning. -/
def scanRules (id : String) : List JObj → GetOutcome
  | [] => .fail (notFoundMsg id)
  | r :: rest =>
    match jlookup r "id" with
    | some (.jstr rid) => if rid = id then .found r else scanRules id rest
    | _ => scanRules id rest

/-- The list-and-scan fallback (client.go lines 444-487). -/
def listFallback (id : String) (listResp : Except String (List JObj)) : GetOutcome :=
  match listResp with
  | .error e => .fail (listFailMsg e)
  | .ok rules => scanRules id rules

/-- client.go GetMappingRule: direct lookup first; on any failure, log the
direct-lookup error with `err.Error()` — a nil-pointer panic when the GET
itself succeeded (err == nil) and only the unmarshal failed — then fall
back to listing all rules. -/
def getMappingRule (id : String) (directResp : Except String (List Char))
    (decodeObj : List Char → Option JObj)
    (listResp : Except String (List JObj)) : GetOutcome :=
  match directResp with
  | .ok resp =>
    match decodeObj resp with
    | some rule => .found rule
    | none =>
      -- tflog.Debug("Direct lookup failed, ...", {"error": err.Error()})
      -- err is nil on this path: err.Error() dereferences a nil interface.
      .nilPanic
  | .error _ => listFallback id listResp

/-! ## Provider configuration (provider.go Configure, lines 61-124)

A Terraform configuration value is null, unknown (deferred), or a known
string.  The process environment is modelled as a lookup function; the
body of `Configure` never consults it.
-/

inductive TfVal where
  | null
  | unknown
  | known (s : String)
deriving DecidableEq

structure ProviderConfig where
  apiKey : TfVal
  apiURL : TfVal
deriving DecidableEq

structure ClientSettings where
  apiKey : String
  apiURL : String
deriving DecidableEq

/-- provider.go Configure: error on unknown api_key; otherwise take the
configured values, defaulting api_key to "" and api_url to
http://localhost:8080.  The environment parameter mirrors the process
environment (os.Getenv); the function body contains no environment read. -/
def configureProvider (cfg : ProviderConfig) (_env : String → Option String) :
    Except String ClientSettings :=
  if cfg.apiKey = .unknown then
    .error "Unknown KeepHQ API Key"
  else
    .ok {
      apiKey := match cfg.apiKey with | .known s => s | _ => ""
      apiURL := match cfg.apiURL with
        | .known s => s
        | .null => "http://localhost:8080"
        | .unknown => ""   -- types.String.ValueString() of an unknown is ""
    }

/-! ## Alert response decoding (resource_alert.go fromClientAlert, lines 92-134)

Lines 96-107 extract twelve fields with unchecked type assertions
(`alert["id"].(string)`, ...); line 113 asserts each source element with
`s.(string)`.  Only `source` (comma-ok on the slice), and `labels`
(comma-ok per entry) are tolerant.
-/

structure AlertModel where
  id : String
  fingerprint : String
  name : String
  status : String
  severity : String
  environment : String
  service : String
  message : String
  description : String
  url : String
  imageURL : String
  lastReceived : String
  source : List String
  labels : List (String × String)
deriving DecidableEq

/-- `sources = append(sources, s.(string))` over `alert["source"].([]interface{})`. -/
def sourceStrings : List JVal → GoResult (List String)
  | [] => .ok []
  | .jstr s :: rest => (sourceStrings rest).bind fun ss => .ok (s :: ss)
  | _ :: _ => .panicked

def alertSources (alert : JObj) : GoResult (List String) :=
  match jlookup alert "source" with
  | some (.jarr xs) => sourceStrings xs
  | _ => .ok []

def alertLabels (alert : JObj) : List (String × String) :=
  match jlookup alert "labels" with
  | some (.jobj l) =>
    l.filterMap (fun p => match p.2 with | .jstr s => some (p.1, s) | _ => none)
  | _ => []

def fromClientAlert (alert : JObj) : GoResult AlertModel :=
  (assertString (jlookup alert "id")).bind fun idv =>
  (assertString (jlookup alert "fingerprint")).bind fun fp =>
  (assertString (jlookup alert "name")).bind fun nm =>
  (assertString (jlookup alert "status")).bind fun st =>
  (assertString (jlookup alert "severity")).bind fun sev =>
  (assertString (jlookup alert "environment")).bind fun env =>
  (assertString (jlookup alert "service")).bind fun svc =>
  (assertString (jlookup alert "message")).bind fun msg =>
  (assertString (jlookup alert "description")).bind fun desc =>
  (assertString (jlookup alert "url")).bind fun url =>
  (assertString (jlookup alert "image_url")).bind fun img =>
  (assertString (jlookup alert "lastReceived")).bind fun lr =>
  (alertSources alert).bind fun srcs =>
  .ok {
    id := idv, fingerprint := fp, name := nm, status := st, severity := sev
    environment := env, service := svc, message := msg, description := desc
    url := url, imageURL := img, lastReceived := lr
    source := srcs, labels := alertLabels alert
  }

/-! ## Extraction-rule create decoding (resource_extraction_rule.go Create, lines 159-182)

Line 160 asserts `createdRule["id"].(float64)` and line 161
`createdRule["name"].(string)` without the comma-ok form; the remaining
fields are extracted tolerantly.
-/

structure ExtractionRuleModel where
  id : String
  name : String
  description : String
  priority : Int
  disabled : Bool
  pre : Bool
  condition : String
  attributeField : String
  regex : String
deriving DecidableEq

def extractionCreateDecode (plan : ExtractionRuleModel) (resp : JObj) :
    GoResult ExtractionRuleModel :=
  (assertNumber (jlookup resp "id")).bind fun idNum =>
  (assertString (jlookup resp "name")).bind fun nm =>
  .ok { plan with
    id := toString idNum   -- fmt.Sprintf("%d", int(... .(float64)))
    name := nm
    description := match jlookup resp "description" with
      | some (.jstr d) => d | _ => plan.description
    priority := match jlookup resp "priority" with
      | some (.jnum p) => p | _ => plan.priority
    disabled := match jlookup resp "disabled" with
      | some (.jbool b) => b | _ => plan.disabled
    pre := match jlookup resp "pre" with
      | some (.jbool b) => b | _ => plan.pre
    condition := match jlookup resp "condition" with
      | some (.jstr c) => if c ≠ "" then c else plan.condition
      | _ => plan.condition
    attributeField := match jlookup resp "attribute" with
      | some (.jstr a) => a | _ => plan.attributeField
    regex := match jlookup resp "regex" with
      | some (.jstr r) => r | _ => plan.regex }

/-! ## Provider resource: schema and update payload (resource_provider.go)

The schema declaration (lines 102-146) attaches a `RequiresReplace` plan
modifier to `type`; the update path (lines 326-339) builds an
`UpdateProviderRequest` carrying only `name` and `config`
(models.go lines 23-27, both `omitempty`).
-/

structure AttrSchema where
  name : String
  required : Bool
  computed : Bool
  sensitive : Bool
  requiresReplace : Bool
deriving DecidableEq

def providerResourceSchema : List AttrSchema := [
  { name := "id", required := false, computed := true, sensitive := false,
    requiresReplace := false },
  { name := "name", required := true, computed := false, sensitive := false,
    requiresReplace := false },
  { name := "type", required := true, computed := false, sensitive := false,
    requiresReplace := true },
  { name := "config", required := true, computed := false, sensitive := true,
    requiresReplace := false },
  { name := "installed", required := false, computed := true, sensitive := false,
    requiresReplace := false },
  { name := "last_alert_received", required := false, computed := true,
    sensitive := false, requiresReplace := false }]

structure ProviderPlan where
  id : String
  name : String
  ptype : String
  config : List (String × String)
  installed : Bool
  lastAlertReceived : Option String
deriving DecidableEq

/-- The JSON body of the in-place provider update: `UpdateProviderRequest`
with `omitempty` on both fields.  `type` is never part of it. -/
def updateProviderBody (plan : ProviderPlan) : JObj :=
  (if plan.name = "" then [] else [("name", JVal.jstr plan.name)]) ++
  (if plan.config.isEmpty then []
   else [("config", JVal.jobj (plan.config.map (fun p => (p.1, JVal.jstr p.2))))])

/-! ## Mapping-rule update at the client (client.go UpdateMappingRule, lines 491-500)

The remote server is external to this repository.  Modelled from the
spec: the server assigns each created mapping rule a fresh, never-reused
identifier ("the identifier changes on update"); `nextId` with the
invariant that all issued identifiers are below it captures freshness.
Delete fails (HTTP 404 → transport error) when the identifier is absent.
-/

structure KeepServer where
  rules : List (Nat × JObj)
  nextId : Nat

def serverIds (s : KeepServer) : List Nat := s.rules.map (·.1)

/-- Modelled from the spec: `POST /mapping` stores the payload under a fresh
server-assigned identifier and returns that identifier. -/
def serverCreateMappingRule (s : KeepServer) (payload : JObj) : Nat × KeepServer :=
  (s.nextId, { rules := (s.nextId, payload) :: s.rules, nextId := s.nextId + 1 })

/-- Modelled from the spec: `DELETE /mapping/{id}` removes the rule, failing
with a transport error when no rule has that identifier. -/
def serverDeleteMappingRule (s : KeepServer) (id : Nat) : Except String KeepServer :=
  if id ∈ serverIds s then
    .ok { s with rules := s.rules.filter (fun r => r.1 ≠ id) }
  else
    .error "API request failed with status 404"

/-- client.go UpdateMappingRule: "we need to delete and recreate the rule to
update it" — DELETE the existing rule, then POST a new one, returning the
identifier of the newly created rule. -/
def updateMappingRuleClient (s : KeepServer) (id : Nat) (payload : JObj) :
    Except String (Nat × KeepServer) :=
  match serverDeleteMappingRule s id with
  | .error e => .error ("failed to delete existing mapping rule: " ++ e)
  | .ok s' => .ok (serverCreateMappingRule s' payload)

/-! ## Mapping-rule Create: applying the API response to the plan
(resource_mapping_rule.go Create, lines 320-492)

The response application runs in two passes (the source contains two
near-duplicate blocks), with a dedicated block for `csv_data` in each
pass: `csv_data` omitted from the response (or JSON null) preserves the
plan value; present as a non-empty string it overwrites with the
normalized text; present as an empty string it nulls the value.
-/

/-- Insert-or-replace into an association list, as Go map assignment. -/
def assocSet {α β : Type} [DecidableEq α] (l : List (α × β)) (k : α) (v : β) :
    List (α × β) :=
  if (l.map (·.1)).contains k then l.map (fun p => if p.1 = k then (k, v) else p)
  else l ++ [(k, v)]

/-- `normalizeCSV` on Lean strings. -/
def normalizeCSVStr (s : String) : String := String.mk (normalizeCSV s.data)

structure MRState where
  id : String
  name : String
  description : String
  priority : Int
  disabled : Bool
  matchers : Option (List (String × String))   -- `none` models a null map value
  csvData : TfVal
deriving DecidableEq

/-- First response pass (lines 321-344): `id` via `fmt.Sprint` of any value,
the other fields by checked assertions. -/
def applyPass1 (st : MRState) (resp : JObj) : MRState :=
  let st := match jlookup resp "id" with
    | some v => { st with id := goSprint v }
    | none => st
  let st := match jlookup resp "name" with
    | some (.jstr s) => { st with name := s } | _ => st
  let st := match jlookup resp "description" with
    | some (.jstr s) => { st with description := s } | _ => st
  let st := match jlookup resp "priority" with
    | some (.jnum p) => { st with priority := p } | _ => st
  let st := match jlookup resp "disabled" with
    | some (.jbool b) => { st with disabled := b } | _ => st
  st

/-- First `csv_data` block (lines 346-364). -/
def applyCsv1 (st : MRState) (resp : JObj) : MRState :=
  match jlookup resp "csv_data" with
  | some .jnull => st                    -- exists && csvData != nil fails: preserve
  | some (.jstr s) =>
    if s ≠ "" then { st with csvData := .known (normalizeCSVStr s) }
    else { st with csvData := .null }
  | some _ => { st with csvData := .null }  -- non-string: inner else, StringNull
  | none => st                              -- omitted: preserve value from plan

/-- Matchers switch (lines 367-420): object form with per-value dispatch
(strings kept, bools and numbers formatted, others skipped), list-of-pairs
form formatted via `fmt.Sprintf("%v", ·)`, anything else nulls the map. -/
def applyMatchersCreate (st : MRState) (resp : JObj) : MRState :=
  match jlookup resp "matchers" with
  | some (.jobj m) =>
    if m.length > 0 then
      { st with matchers := some (m.foldl (fun acc p =>
          match p.2 with
          | .jstr s => assocSet acc p.1 s
          | .jbool b => assocSet acc p.1 (cond b "true" "false")
          | .jnum n => assocSet acc p.1 (toString n)
          | _ => acc) []) }
    else st
  | some (.jarr xs) =>
    { st with matchers := some (xs.foldl (fun acc x =>
        match x with
        | .jarr [.jstr k, v] => assocSet acc k (goSprint v)
        | _ => acc) []) }
  | _ => { st with matchers := none }

/-- Second response pass (lines 423-463): typed re-assignments; an `id` of
unexpected dynamic type only logs a warning and keeps the pass-1 value. -/
def applyPass2 (st : MRState) (resp : JObj) : MRState :=
  let st := match jlookup resp "id" with
    | some (.jnum n) => { st with id := toString n }   -- fmt.Sprintf("%.0f", v)
    | some (.jstr s) => { st with id := s }
    | _ => st
  let st := match jlookup resp "name" with
    | some (.jstr s) => { st with name := s } | _ => st
  let st := match jlookup resp "description" with
    | some (.jstr s) => { st with description := s } | _ => st
  let st := match jlookup resp "priority" with
    | some (.jnum p) => { st with priority := p } | _ => st
  let st := match jlookup resp "disabled" with
    | some (.jbool b) => { st with disabled := b } | _ => st
  st

/-- Second `csv_data` block (lines 466-489): like the first, except a
present non-string value only logs and changes nothing. -/
def applyCsv2 (st : MRState) (resp : JObj) : MRState :=
  match jlookup resp "csv_data" with
  | some .jnull => st
  | some (.jstr s) =>
    if s ≠ "" then { st with csvData := .known (normalizeCSVStr s) }
    else { st with csvData := .null }
  | some _ => st                           -- unexpected type: log only
  | none => st                             -- omitted: preserve existing value

/-- The full response application of Create, in source order. -/
def mappingRuleCreateApply (plan : MRState) (resp : JObj) : MRState :=
  applyCsv2 (applyPass2 (applyMatchersCreate (applyCsv1 (applyPass1 plan resp) resp) resp) resp) resp

/-! ## CSV reading (encoding/csv with default settings, as used by
resource_mapping_rule.go parseCSVData, lines 41-72)

`parseCSVData` builds `csv.NewReader(strings.NewReader(csvData))` with the
default configuration: comma separator, RFC-4180 quoting, no lazy quotes,
no leading-space trimming, `FieldsPerRecord = 0` (the first record fixes
the expected field count; later records of a different length fail with
`ErrFieldCount`).

The reader is modelled in two stages mirroring `csv.Reader.readLine` and
`csv.Reader.readRecord`:
  * `splitLines` cuts the input after each `'\n'` (kept in the line),
    normalizes a `"\r\n"` terminator to `"\n"`, and drops one trailing
    `'\r'` from a final line not ended by `'\n'`;
  * `scanLine` scans one line of a record (fields end at `','` or at the
    line end; a quoted field may continue onto following lines, carrying
    the fields parsed so far and the partial field).
Records never span a line boundary except inside quotes, and lines that
consist only of their terminator are skipped between records.
-/

inductive CsvErr where
  | bareQuote    -- ErrBareQuote: bare quote in non-quoted field
  | quoteErr     -- ErrQuote: extraneous or missing quote in quoted field
  | fieldCount   -- ErrFieldCount: wrong number of fields
deriving DecidableEq

abbrev CsvField := List Char
abbrev CsvRecord := List CsvField

def splitLinesAux : List Char → List Char → List (List Char)
  | cur, [] =>
    match cur with
    | [] => []
    | '\r' :: cur' => [cur'.reverse]
    | _ => [cur.reverse]
  | cur, c :: rest =>
    if c = '\n' then
      (match cur with
       | '\r' :: cur' => ('\n' :: cur').reverse
       | _ => ('\n' :: cur).reverse) :: splitLinesAux [] rest
    else splitLinesAux (c :: cur) rest

def splitLines (input : List Char) : List (List Char) := splitLinesAux [] input

/-- Fields completed so far in the current record, plus the partial
contents of the quoted field that continues on the next line. -/
abbrev QuoteCarry := CsvRecord × List Char

inductive LineMode where
  | fieldStart
  | unquoted (acc : List Char)
  | quoted (acc : List Char)

def scanLine (fields : CsvRecord) :
    LineMode → List Char → Except CsvErr (QuoteCarry ⊕ CsvRecord)
  | .fieldStart, [] => .ok (.inr (fields ++ [[]]))
  | .fieldStart, c :: rest =>
    if c = '\n' then .ok (.inr (fields ++ [[]]))
    else if c = '"' then scanLine fields (.quoted []) rest
    else if c = ',' then scanLine (fields ++ [[]]) .fieldStart rest
    else scanLine fields (.unquoted [c]) rest
  | .unquoted acc, [] => .ok (.inr (fields ++ [acc]))
  | .unquoted acc, c :: rest =>
    if c = '\n' then .ok (.inr (fields ++ [acc]))
    else if c = ',' then scanLine (fields ++ [acc]) .fieldStart rest
    else if c = '"' then .error .bareQuote
    else scanLine fields (.unquoted (acc ++ [c])) rest
  | .quoted acc, [] => .ok (.inl (fields, acc))
  | .quoted acc, c :: rest =>
    if c = '"' then
      match rest with
      | [] => .ok (.inr (fields ++ [acc]))
      | c₂ :: rest₂ =>
        if c₂ = '\n' then .ok (.inr (fields ++ [acc]))
        else if c₂ = '"' then scanLine fields (.quoted (acc ++ ['"'])) rest₂
        else if c₂ = ',' then scanLine (fields ++ [acc]) .fieldStart rest₂
        else .error .quoteErr
    else scanLine fields (.quoted (acc ++ [c])) rest

/-- Continue a record whose quoted field spans line boundaries. -/
def readOneCont (c : QuoteCarry) :
    List (List Char) → Except CsvErr (CsvRecord × List (List Char))
  | [] => .error .quoteErr               -- abrupt end of file inside quotes
  | line :: rest =>
    match scanLine c.1 (.quoted c.2) line with
    | .error e => .error e
    | .ok (.inl c') => readOneCont c' rest
    | .ok (.inr rec) => .ok (rec, rest)

/-- `csv.Reader.Read`: skip blank lines, then parse one record;
`.ok none` is `io.EOF`. -/
def readOneRecord :
    List (List Char) → Except CsvErr (Option (CsvRecord × List (List Char)))
  | [] => .ok none
  | line :: rest =>
    if line = [] ∨ line = ['\n'] then readOneRecord rest
    else
      match scanLine [] .fieldStart line with
      | .error e => .error e
      | .ok (.inl c') => (readOneCont c' rest).map some
      | .ok (.inr rec) => .ok (some (rec, rest))

structure CsvScan where
  recs : List CsvRecord
  carry : Option QuoteCarry

/-- One line of `csv.Reader.ReadAll` without field-count enforcement
(how the records of the text are delimited, `FieldsPerRecord = -1`). -/
def csvStep (s : CsvScan) (line : List Char) : Except CsvErr CsvScan :=
  match s.carry with
  | some (fields, acc) =>
    match scanLine fields (.quoted acc) line with
    | .error e => .error e
    | .ok (.inl c') => .ok { s with carry := some c' }
    | .ok (.inr rec) => .ok { recs := s.recs ++ [rec], carry := none }
  | none =>
    if line = [] ∨ line = ['\n'] then .ok s
    else
      match scanLine [] .fieldStart line with
      | .error e => .error e
      | .ok (.inl c') => .ok { s with carry := some c' }
      | .ok (.inr rec) => .ok { recs := s.recs ++ [rec], carry := none }

def readAllAux (s : CsvScan) : List (List Char) → Except CsvErr (List CsvRecord)
  | [] =>
    match s.carry with
    | some _ => .error .quoteErr
    | none => .ok s.recs
  | line :: rest =>
    match csvStep s line with
    | .error e => .error e
    | .ok s' => readAllAux s' rest

/-- The record structure of a CSV text: all its records, each a list of
fields, with no field-count constraint. -/
def csvRecords (input : List Char) : Except CsvErr (List CsvRecord) :=
  readAllAux { recs := [], carry := none } (splitLines input)

/-- Like `csvStep`, with `FieldsPerRecord = n`: a completed record whose
field count differs from `n` fails with `ErrFieldCount`. -/
def csvStepN (n : Nat) (s : CsvScan) (line : List Char) : Except CsvErr CsvScan :=
  match s.carry with
  | some (fields, acc) =>
    match scanLine fields (.quoted acc) line with
    | .error e => .error e
    | .ok (.inl c') => .ok { s with carry := some c' }
    | .ok (.inr rec) =>
      if rec.length ≠ n then .error .fieldCount
      else .ok { recs := s.recs ++ [rec], carry := none }
  | none =>
    if line = [] ∨ line = ['\n'] then .ok s
    else
      match scanLine [] .fieldStart line with
      | .error e => .error e
      | .ok (.inl c') => .ok { s with carry := some c' }
      | .ok (.inr rec) =>
        if rec.length ≠ n then .error .fieldCount
        else .ok { recs := s.recs ++ [rec], carry := none }

def readAllNAux (n : Nat) (s : CsvScan) : List (List Char) → Except CsvErr (List CsvRecord)
  | [] =>
    match s.carry with
    | some _ => .error .quoteErr
    | none => .ok s.recs
  | line :: rest =>
    match csvStepN n s line with
    | .error e => .error e
    | .ok s' => readAllNAux n s' rest

/-- `csv.Reader.ReadAll` after the header fixed `FieldsPerRecord = n`. -/
def readAllEnforce (n : Nat) (lines : List (List Char)) : Except CsvErr (List CsvRecord) :=
  readAllNAux n { recs := [], carry := none } lines

/-! ## parseCSVData (resource_mapping_rule.go, lines 41-72) -/

inductive ParseErr where
  | headerError (e : Option CsvErr)    -- "error reading CSV header" (none = io.EOF)
  | recordsError (e : CsvErr)          -- "error reading CSV records"
  | fieldMismatch (expected got : Nat) -- the function's own count check
deriving DecidableEq

/-- One CSV row as a map from trimmed header names to trimmed cells
(`row[strings.TrimSpace(key)] = strings.TrimSpace(record[i])`). -/
def buildRow (header rec : CsvRecord) : List (CsvField × CsvField) :=
  (header.zip rec).foldl (fun r p => assocSet r (trimSpace p.1) (trimSpace p.2)) []

def buildRows (header : CsvRecord) :
    List CsvRecord → Except ParseErr (List (List (CsvField × CsvField)))
  | [] => .ok []
  | rec :: rest =>
    if rec.length ≠ header.length then
      .error (.fieldMismatch header.length rec.length)
    else (buildRows header rest).map (buildRow header rec :: ·)

/-- resource_mapping_rule.go parseCSVData: read the header record, read all
remaining records (the reader enforcing the header's field count), then
convert each record to a row map. -/
def parseCSVData (csv : List Char) : Except ParseErr (List (List (CsvField × CsvField))) :=
  match readOneRecord (splitLines csv) with
  | .error e => .error (.headerError (some e))
  | .ok none => .error (.headerError none)
  | .ok (some (header, rest)) =>
    match readAllEnforce header.length rest with
    | .error e => .error (.recordsError e)
    | .ok records => buildRows header records

/-! ## Mapping-rule Create/Update control flow up to the network call
(resource_mapping_rule.go Create lines 172-293, Update lines 509-616)

Both operations validate the configured CSV text with `parseCSVData`
before any client call; a validation failure returns diagnostics with no
request issued.  The network effects of each outcome are listed by
`createNetworkCalls` / `updateNetworkCalls` (an update that reaches the
client performs DELETE-then-POST, per client.go UpdateMappingRule).
-/

structure MRPlan where
  name : String
  description : String
  priority : Int
  matchers : List (String × String)
  csvData : TfVal
deriving DecidableEq

structure MappingRulePayload where
  name : String
  description : String
  priority : Int
  matchers : List (List String)
  csvData : Option String
  ruleType : Option String
  rows : Option (List (List (CsvField × CsvField)))
deriving DecidableEq

def basePayload (plan : MRPlan) : MappingRulePayload :=
  { name := plan.name, description := plan.description, priority := plan.priority,
    matchers := plan.matchers.map (fun p => [p.1, p.2]),
    csvData := none, ruleType := none, rows := none }

inductive CreateOutcome where
  | validationError (e : ParseErr)
  | networkCreate (payload : MappingRulePayload)
deriving DecidableEq

/-- Create: validate the CSV (line 214), re-parse it for the `rows` payload
(line 236), then call `r.client.CreateMappingRule`. -/
def mappingRuleCreate (plan : MRPlan) : CreateOutcome :=
  match plan.csvData with
  | .known s =>
    match parseCSVData s.data with
    | .error e => .validationError e
    | .ok _ =>
      match parseCSVData s.data with
      | .error e => .validationError e
      | .ok rows =>
        .networkCreate { basePayload plan with
          csvData := some s, ruleType := some "csv", rows := some rows }
  | _ => .networkCreate (basePayload plan)

def createNetworkCalls : CreateOutcome → List String
  | .validationError _ => []
  | .networkCreate _ => ["POST /mapping"]

inductive UpdateOutcome where
  | invalidState
  | validationError (e : ParseErr)
  | networkUpdate (id : String) (payload : MappingRulePayload)
deriving DecidableEq

/-- Update: require a state id (lines 543-549), parse a non-empty CSV for
`rows` (lines 579-595), then call `r.client.UpdateMappingRule`. -/
def mappingRuleUpdate (stateId : Option String) (plan : MRPlan) : UpdateOutcome :=
  match stateId with
  | none => .invalidState
  | some i =>
    match plan.csvData with
    | .known s =>
      if s ≠ "" then
        match parseCSVData s.data with
        | .error e => .validationError e
        | .ok rows =>
          .networkUpdate i { basePayload plan with csvData := some s, rows := some rows }
      else .networkUpdate i { basePayload plan with csvData := some s }
    | _ => .networkUpdate i (basePayload plan)

def updateNetworkCalls : UpdateOutcome → List String
  | .networkUpdate i _ => ["DELETE /mapping/" ++ i, "POST /mapping"]
  | _ => []

/-! # Lemmas and claim theorems -/

/-! ## Trimming and line-ending normalization -/

theorem headOK_dropWhile (l : List Char) : headOK (l.dropWhile isGoSpace) := by
  induction l with
  | nil => intro c h; simp [List.dropWhile] at h
  | cons a l ih =>
    intro c h
    rw [List.dropWhile_cons] at h
    cases ha : isGoSpace a with
    | true => rw [ha] at h; simp at h; exact ih c h
    | false => rw [ha] at h; simp at h; rw [← h]; exact ha

theorem headOK_trimLeft (l : List Char) : headOK (trimLeft l) :=
  headOK_dropWhile l

theorem lastOK_trimRight (l : List Char) : lastOK (trimRight l) := by
  unfold lastOK trimRight
  rw [List.reverse_reverse]
  exact headOK_dropWhile l.reverse

/-- `dropWhile` yields a suffix: the input is some prefix followed by the result. -/
theorem dropWhile_eq_append (p : Char → Bool) (l : List Char) :
    ∃ t, l = t ++ l.dropWhile p := by
  induction l with
  | nil => exact ⟨[], rfl⟩
  | cons a l ih =>
    rw [List.dropWhile_cons]
    by_cases ha : p a
    · obtain ⟨t, ht⟩ := ih
      exact ⟨a :: t, by simp [ha, ← ht]⟩
    · exact ⟨[], by simp [ha]⟩

theorem headOK_of_append {d t : List Char} (h : headOK (d ++ t)) (hne : d ≠ []) :
    headOK d := by
  intro c hc
  apply h
  cases d with
  | nil => exact absurd rfl hne
  | cons a d => simpa using hc

/-- Trimming on the right keeps a non-whitespace first character. -/
theorem headOK_trimRight {l : List Char} (h : headOK l) : headOK (trimRight l) := by
  unfold trimRight
  by_cases hd : l.reverse.dropWhile isGoSpace = []
  · rw [hd]; intro c hc; simp at hc
  · obtain ⟨t, ht⟩ := dropWhile_eq_append isGoSpace l.reverse
    have hl : l = (l.reverse.dropWhile isGoSpace).reverse ++ t.reverse := by
      have h₂ := congrArg List.reverse ht
      rw [List.reverse_reverse, List.reverse_append] at h₂
      exact h₂
    have h' : headOK ((l.reverse.dropWhile isGoSpace).reverse ++ t.reverse) := by
      rw [← hl]; exact h
    exact headOK_of_append h' (by simpa using hd)

/-- Trimming on the left keeps a non-whitespace last character. -/
theorem lastOK_trimLeft {l : List Char} (h : lastOK l) : lastOK (trimLeft l) := by
  unfold lastOK trimLeft
  by_cases hd : l.dropWhile isGoSpace = []
  · rw [hd]; intro c hc; simp at hc
  · obtain ⟨t, ht⟩ := dropWhile_eq_append isGoSpace l
    have hl : l.reverse = (l.dropWhile isGoSpace).reverse ++ t.reverse := by
      rw [← List.reverse_append, ← ht]
    have h' : headOK ((l.dropWhile isGoSpace).reverse ++ t.reverse) := by
      rw [← hl]; exact h
    exact headOK_of_append h' (by simpa using hd)

theorem headOK_trimSpace (l : List Char) : headOK (trimSpace l) :=
  headOK_trimRight (headOK_trimLeft l)

theorem lastOK_trimSpace (l : List Char) : lastOK (trimSpace l) :=
  lastOK_trimRight (trimLeft l)

/-- A string whose ends are not whitespace is a fixed point of `trimSpace`. -/
theorem trimSpace_eq_self {l : List Char} (h₁ : headOK l) (h₂ : lastOK l) :
    trimSpace l = l := by
  have hleft : trimLeft l = l := by
    unfold trimLeft
    cases l with
    | nil => rfl
    | cons a l => rw [List.dropWhile_cons]; simp [h₁ a rfl]
  unfold trimSpace
  rw [hleft]
  unfold trimRight
  have : l.reverse.dropWhile isGoSpace = l.reverse := by
    cases hr : l.reverse with
    | nil => simp
    | cons a r =>
      rw [List.dropWhile_cons]
      have := h₂ a (by rw [hr]; rfl)
      simp [this]
  rw [this, List.reverse_reverse]

/-- Trimming is idempotent. -/
theorem trimSpace_idem (l : List Char) : trimSpace (trimSpace l) = trimSpace l :=
  trimSpace_eq_self (headOK_trimSpace l) (lastOK_trimSpace l)

/-! ### Lemmas about `replaceCRLF` -/

theorem replaceCRLF_ne_nil : ∀ {l : List Char}, l ≠ [] → replaceCRLF l ≠ []
  | [], h => absurd rfl h
  | [c], _ => by simp [replaceCRLF]
  | _ :: _ :: _, _ => by rw [replaceCRLF]; split <;> simp

theorem lastOK_iff (l : List Char) :
    lastOK l ↔ ∀ c, l.getLast? = some c → isGoSpace c = false := by
  unfold lastOK headOK
  rw [List.head?_reverse]

theorem getLast?_cons_of_ne {a : Char} {w : List Char} (hw : w ≠ []) :
    (a :: w).getLast? = w.getLast? := by
  cases w with
  | nil => exact absurd rfl hw
  | cons b w => exact List.getLast?_cons_cons

/-- `replaceCRLF` keeps a non-whitespace first character. -/
theorem headOK_replaceCRLF : ∀ {l : List Char}, headOK l → headOK (replaceCRLF l)
  | [], h => h
  | [c], h => h
  | c₁ :: c₂ :: rest, h => by
    rw [replaceCRLF]
    split
    · next hc =>
      exfalso
      have h₁ := h c₁ rfl
      rw [hc.1] at h₁
      exact absurd h₁ (by decide)
    · intro c hc
      simp at hc
      rw [← hc]
      exact h c₁ rfl

/-- `replaceCRLF` keeps a non-whitespace last character. -/
theorem getLastOK_replaceCRLF :
    ∀ (l : List Char), (∀ c, l.getLast? = some c → isGoSpace c = false) →
      ∀ c, (replaceCRLF l).getLast? = some c → isGoSpace c = false
  | [], h => h
  | [a], h => by rw [replaceCRLF]; exact h
  | c₁ :: c₂ :: rest, h => by
    intro c hc
    rw [replaceCRLF] at hc
    split at hc
    · next hcc =>
      cases rest with
      | nil =>
        rw [replaceCRLF] at hc
        simp at hc
        have h₂ := h c₂ (by rw [getLast?_cons_of_ne (by simp)]; rfl)
        rw [hcc.2] at h₂
        exact absurd h₂ (by decide)
      | cons r rs =>
        rw [getLast?_cons_of_ne (replaceCRLF_ne_nil (by simp))] at hc
        refine getLastOK_replaceCRLF (r :: rs) ?_ c hc
        intro d hd
        exact h d (by
          rw [getLast?_cons_of_ne (by simp), getLast?_cons_of_ne (by simp)]
          exact hd)
    · rw [getLast?_cons_of_ne (replaceCRLF_ne_nil (by simp))] at hc
      refine getLastOK_replaceCRLF (c₂ :: rest) ?_ c hc
      intro d hd
      exact h d (by rw [getLast?_cons_of_ne (by simp)]; exact hd)

theorem lastOK_replaceCRLF {l : List Char} (h : lastOK l) : lastOK (replaceCRLF l) := by
  rw [lastOK_iff] at h ⊢
  exact getLastOK_replaceCRLF l h

/-- A string without `"\r\n"` is a fixed point of `replaceCRLF`. -/
theorem replaceCRLF_eq_self : ∀ {l : List Char}, hasCRLF l = false → replaceCRLF l = l
  | [], _ => rfl
  | [_], _ => rfl
  | c₁ :: c₂ :: rest, h => by
    rw [hasCRLF] at h
    rw [replaceCRLF]
    split
    · next hc => rw [hc.1, hc.2] at h; simp at h
    · next hc =>
      rw [replaceCRLF_eq_self (Bool.or_eq_false_iff.mp h).2]

theorem hasCRRLF_tail : ∀ {c : Char} {l : List Char},
    hasCRRLF (c :: l) = false → hasCRRLF l = false
  | _, [], _ => rfl
  | _, [_], _ => rfl
  | _, _ :: _ :: _, h => by
    rw [hasCRRLF] at h
    exact (Bool.or_eq_false_iff.mp h).2

/-- One pass of `replaceCRLF` removes every `"\r\n"`, provided the input
has no `"\r\r\n"` (whose replacement regenerates a `"\r\n"`). -/
theorem hasCRLF_replaceCRLF :
    ∀ {l : List Char}, hasCRRLF l = false → hasCRLF (replaceCRLF l) = false
  | [], _ => rfl
  | [_], _ => rfl
  | c₁ :: c₂ :: rest, h => by
    rw [replaceCRLF]
    split
    · next hc =>
      have ih := hasCRLF_replaceCRLF (hasCRRLF_tail (hasCRRLF_tail h))
      cases hw : replaceCRLF rest with
      | nil => rfl
      | cons d ws =>
        rw [hasCRLF]
        rw [hw] at ih
        simp [ih]
    · next hc =>
      have ih := hasCRLF_replaceCRLF (hasCRRLF_tail h)
      cases hw : replaceCRLF (c₂ :: rest) with
      | nil => exact absurd hw (replaceCRLF_ne_nil (by simp))
      | cons d ws =>
        rw [hasCRLF]
        rw [hw] at ih
        rw [Bool.or_eq_false_iff]
        refine ⟨?_, ih⟩
        by_cases h₁ : c₁ = '\r'
        · subst h₁
          have hd : d ≠ '\n' := by
            cases rest with
            | nil =>
              rw [replaceCRLF] at hw
              injection hw with hw₁ _
              rw [← hw₁]
              intro hne
              exact hc ⟨rfl, hne⟩
            | cons r rs =>
              rw [replaceCRLF] at hw
              split at hw
              · next hcc =>
                exfalso
                rw [hasCRRLF, hcc.1, hcc.2] at h
                simp at h
              · injection hw with hw₁ _
                rw [← hw₁]
                intro hne
                exact hc ⟨rfl, hne⟩
          simp [hd]
        · simp [h₁]

/-- A string whose trimmed form has no `"\r\r\n"` is normalized to a fixed
point: this is the precise domain on which the normalizer is idempotent. -/
theorem normalizeCSV_idem_of_no_crrlf (l : List Char)
    (h : hasCRRLF (trimSpace l) = false) :
    normalizeCSV (normalizeCSV l) = normalizeCSV l := by
  unfold normalizeCSV
  rw [trimSpace_eq_self (headOK_replaceCRLF (headOK_trimSpace l))
        (lastOK_replaceCRLF (lastOK_trimSpace l))]
  exact replaceCRLF_eq_self (hasCRLF_replaceCRLF h)


/-! ## CSV reader lemmas -/

/-- The records accumulated so far are a pure accumulator of `readAllAux`. -/
theorem readAllAux_acc :
    ∀ (lines : List (List Char)) (a : List CsvRecord) (carry : Option QuoteCarry),
      readAllAux ⟨a, carry⟩ lines = (readAllAux (⟨[], carry⟩ : CsvScan) lines).map (a ++ ·)
  | [], a, carry => by
    cases carry <;> simp [readAllAux, Except.map]
  | line :: rest, a, carry => by
    cases carry with
    | some c =>
      obtain ⟨f, acc⟩ := c
      simp only [readAllAux, csvStep]
      cases hscan : scanLine f (.quoted acc) line with
      | error e => simp [Except.map]
      | ok v =>
        cases v with
        | inl c' => simpa using readAllAux_acc rest a (some c')
        | inr rec =>
          simp only []
          rw [readAllAux_acc rest (a ++ [rec]) none, List.nil_append,
            readAllAux_acc rest [rec] none]
          cases readAllAux (⟨[], none⟩ : CsvScan) rest <;> simp [Except.map]
    | none =>
      by_cases hblank : line = [] ∨ line = ['\n']
      · simp only [readAllAux, csvStep, if_pos hblank]
        exact readAllAux_acc rest a none
      · simp only [readAllAux, csvStep, if_neg hblank]
        cases hscan : scanLine [] .fieldStart line with
        | error e => simp [Except.map]
        | ok v =>
          cases v with
          | inl c' => simpa using readAllAux_acc rest a (some c')
          | inr rec =>
            simp only []
            rw [readAllAux_acc rest (a ++ [rec]) none, List.nil_append,
            readAllAux_acc rest [rec] none]
            cases readAllAux (⟨[], none⟩ : CsvScan) rest <;> simp [Except.map]

theorem readAllAux_carry_decomp :
    ∀ (lines : List (List Char)) (c : QuoteCarry) (h : CsvRecord) (rs : List CsvRecord),
      readAllAux ⟨[], some c⟩ lines = .ok (h :: rs) →
      ∃ rest, readOneCont c lines = .ok (h, rest) ∧
        readAllAux (⟨[], none⟩ : CsvScan) rest = .ok rs
  | [], c, h, rs => by intro hh; simp [readAllAux] at hh
  | line :: rest, c, h, rs => by
    intro hh
    obtain ⟨f, acc⟩ := c
    simp only [readAllAux, csvStep] at hh
    cases hscan : scanLine f (.quoted acc) line with
    | error e => rw [hscan] at hh; simp at hh
    | ok v =>
      rw [hscan] at hh
      cases v with
      | inl c' =>
        simp only [] at hh
        obtain ⟨rest', h₁, h₂⟩ := readAllAux_carry_decomp rest c' h rs hh
        exact ⟨rest', by simp [readOneCont, hscan, h₁], h₂⟩
      | inr rec =>
        simp only [] at hh
        rw [List.nil_append, readAllAux_acc rest [rec] none] at hh
        cases hra : readAllAux (⟨[], none⟩ : CsvScan) rest with
        | error e => rw [hra] at hh; simp [Except.map] at hh
        | ok out =>
          rw [hra] at hh
          simp [Except.map] at hh
          exact ⟨rest, by simp [readOneCont, hscan, hh.1], by rw [hra, hh.2]⟩

theorem readAllAux_decomp :
    ∀ (lines : List (List Char)) (h : CsvRecord) (rs : List CsvRecord),
      readAllAux (⟨[], none⟩ : CsvScan) lines = .ok (h :: rs) →
      ∃ rest, readOneRecord lines = .ok (some (h, rest)) ∧
        readAllAux (⟨[], none⟩ : CsvScan) rest = .ok rs
  | [], h, rs => by intro hh; simp [readAllAux] at hh
  | line :: rest, h, rs => by
    intro hh
    by_cases hblank : line = [] ∨ line = ['\n']
    · simp only [readAllAux, csvStep] at hh
      rw [if_pos hblank] at hh
      obtain ⟨rest', h₁, h₂⟩ := readAllAux_decomp rest h rs hh
      refine ⟨rest', ?_, h₂⟩
      simp only [readOneRecord]
      rw [if_pos hblank]
      exact h₁
    · simp only [readAllAux, csvStep] at hh
      rw [if_neg hblank] at hh
      cases hscan : scanLine [] .fieldStart line with
      | error e => rw [hscan] at hh; simp at hh
      | ok v =>
        rw [hscan] at hh
        cases v with
        | inl c' =>
          simp only [] at hh
          obtain ⟨rest', h₁, h₂⟩ := readAllAux_carry_decomp rest c' h rs hh
          refine ⟨rest', ?_, h₂⟩
          simp only [readOneRecord]
          rw [if_neg hblank, hscan]
          simp [h₁, Except.map]
        | inr rec =>
          simp only [] at hh
          rw [List.nil_append, readAllAux_acc rest [rec] none] at hh
          cases hra : readAllAux (⟨[], none⟩ : CsvScan) rest with
          | error e => rw [hra] at hh; simp [Except.map] at hh
          | ok out =>
            rw [hra] at hh
            simp [Except.map] at hh
            refine ⟨rest, ?_, by rw [hra, hh.2]⟩
            simp only [readOneRecord]
            rw [if_neg hblank, hscan]
            simp [hh.1]

/-- Field-count enforcement passes when every record of the text has the
expected length. -/
theorem readAllNAux_of_ok (n : Nat) :
    ∀ (lines : List (List Char)) (a : List CsvRecord) (carry : Option QuoteCarry)
      (rs : List CsvRecord),
      readAllAux ⟨a, carry⟩ lines = .ok rs →
      (∀ r ∈ rs, r.length = n) →
      readAllNAux n ⟨a, carry⟩ lines = .ok rs
  | [], a, carry, rs => by
    intro hh _
    cases carry with
    | some c => simp [readAllAux] at hh
    | none =>
      simp [readAllAux] at hh
      simp [readAllNAux, hh]
  | line :: rest, a, carry, rs => by
    intro hh hall
    have hlen : ∀ (rec : CsvRecord),
        readAllAux (⟨a ++ [rec], none⟩ : CsvScan) rest = .ok rs → rec.length = n := by
      intro rec hrec
      rw [readAllAux_acc rest (a ++ [rec]) none] at hrec
      cases hra : readAllAux (⟨[], none⟩ : CsvScan) rest with
      | error e => rw [hra] at hrec; simp [Except.map] at hrec
      | ok out =>
        rw [hra] at hrec
        simp [Except.map] at hrec
        exact hall rec (by rw [← hrec]; simp)
    cases carry with
    | some c =>
      obtain ⟨f, acc⟩ := c
      simp only [readAllAux, csvStep] at hh
      simp only [readAllNAux, csvStepN]
      cases hscan : scanLine f (.quoted acc) line with
      | error e => rw [hscan] at hh; simp at hh
      | ok v =>
        rw [hscan] at hh
        cases v with
        | inl c' =>
          simp only [] at hh ⊢
          exact readAllNAux_of_ok n rest a (some c') rs hh hall
        | inr rec =>
          simp only [] at hh ⊢
          rw [if_neg (by simp [hlen rec hh])]
          exact readAllNAux_of_ok n rest (a ++ [rec]) none rs hh hall
    | none =>
      simp only [readAllAux, csvStep] at hh
      simp only [readAllNAux, csvStepN]
      by_cases hblank : line = [] ∨ line = ['\n']
      · rw [if_pos hblank] at hh ⊢
        exact readAllNAux_of_ok n rest a none rs hh hall
      · rw [if_neg hblank] at hh ⊢
        cases hscan : scanLine [] .fieldStart line with
        | error e => rw [hscan] at hh; simp at hh
        | ok v =>
          rw [hscan] at hh
          cases v with
          | inl c' =>
            simp only [] at hh ⊢
            exact readAllNAux_of_ok n rest a (some c') rs hh hall
          | inr rec =>
            simp only [] at hh ⊢
            rw [if_neg (by simp [hlen rec hh])]
            exact readAllNAux_of_ok n rest (a ++ [rec]) none rs hh hall

/-- Field-count enforcement fails with `ErrFieldCount` when the text parses
but some record has a different length (and all previously accepted
records were fine). -/
theorem readAllNAux_of_mismatch (n : Nat) :
    ∀ (lines : List (List Char)) (a : List CsvRecord) (carry : Option QuoteCarry)
      (rs : List CsvRecord),
      readAllAux ⟨a, carry⟩ lines = .ok rs →
      (∀ r ∈ a, r.length = n) →
      (∃ r ∈ rs, r.length ≠ n) →
      readAllNAux n ⟨a, carry⟩ lines = .error .fieldCount
  | [], a, carry, rs => by
    intro hh ha hex
    cases carry with
    | some c => simp [readAllAux] at hh
    | none =>
      simp [readAllAux] at hh
      obtain ⟨r, hr, hrn⟩ := hex
      exact absurd (ha r (hh ▸ hr)) hrn
  | line :: rest, a, carry, rs => by
    intro hh ha hex
    have hsplit : ∀ (rec : CsvRecord),
        readAllAux (⟨a ++ [rec], none⟩ : CsvScan) rest = .ok rs →
        rec.length = n →
        readAllNAux n (⟨a ++ [rec], none⟩ : CsvScan) rest = .error .fieldCount := by
      intro rec hrec hrn
      refine readAllNAux_of_mismatch n rest (a ++ [rec]) none rs hrec ?_ hex
      intro r hr
      rcases List.mem_append.mp hr with hr | hr
      · exact ha r hr
      · simp at hr; rw [hr]; exact hrn
    cases carry with
    | some c =>
      obtain ⟨f, acc⟩ := c
      simp only [readAllAux, csvStep] at hh
      simp only [readAllNAux, csvStepN]
      cases hscan : scanLine f (.quoted acc) line with
      | error e => rw [hscan] at hh; simp at hh
      | ok v =>
        rw [hscan] at hh
        cases v with
        | inl c' =>
          simp only [] at hh ⊢
          exact readAllNAux_of_mismatch n rest a (some c') rs hh ha hex
        | inr rec =>
          simp only [] at hh ⊢
          by_cases hrn : rec.length = n
          · rw [if_neg (by simp [hrn])]
            exact hsplit rec hh hrn
          · rw [if_pos hrn]
    | none =>
      simp only [readAllAux, csvStep] at hh
      simp only [readAllNAux, csvStepN]
      by_cases hblank : line = [] ∨ line = ['\n']
      · rw [if_pos hblank] at hh ⊢
        exact readAllNAux_of_mismatch n rest a none rs hh ha hex
      · rw [if_neg hblank] at hh ⊢
        cases hscan : scanLine [] .fieldStart line with
        | error e => rw [hscan] at hh; simp at hh
        | ok v =>
          rw [hscan] at hh
          cases v with
          | inl c' =>
            simp only [] at hh ⊢
            exact readAllNAux_of_mismatch n rest a (some c') rs hh ha hex
          | inr rec =>
            simp only [] at hh ⊢
            by_cases hrn : rec.length = n
            · rw [if_neg (by simp [hrn])]
              exact hsplit rec hh hrn
            · rw [if_pos hrn]

/-! ## Row-building lemmas -/

theorem assocSet_keys {α β : Type} [DecidableEq α] (r : List (α × β)) (k k' : α) (v : β) :
    (k' ∈ (assocSet r k v).map (·.1)) ↔ k' ∈ r.map (·.1) ∨ k' = k := by
  unfold assocSet
  by_cases hc : (r.map (·.1)).contains k
  · rw [if_pos hc]
    have hkeys : (r.map (fun p => if p.1 = k then (k, v) else p)).map (·.1) = r.map (·.1) := by
      rw [List.map_map]
      apply List.map_congr_left
      intro p _
      by_cases hp : p.1 = k
      · simp [hp]
      · simp [hp]
    rw [hkeys]
    constructor
    · exact Or.inl
    · rintro (hm | rfl)
      · exact hm
      · exact List.elem_iff.mp hc
  · rw [if_neg hc]
    simp

theorem assocSet_values {α β : Type} [DecidableEq α] (r : List (α × β)) (k : α) (v : β)
    (P : α × β → Prop) (hr : ∀ p ∈ r, P p) (hkv : P (k, v)) :
    ∀ p ∈ assocSet r k v, P p := by
  unfold assocSet
  by_cases hc : (r.map (·.1)).contains k
  · rw [if_pos hc]
    intro p hp
    obtain ⟨q, hq, hqp⟩ := List.mem_map.mp hp
    by_cases hqk : q.1 = k
    · rw [if_pos hqk] at hqp; rw [← hqp]; exact hkv
    · rw [if_neg hqk] at hqp; rw [← hqp]; exact hr q hq
  · rw [if_neg hc]
    intro p hp
    rcases List.mem_append.mp hp with hp | hp
    · exact hr p hp
    · simp at hp; rw [hp]; exact hkv

theorem buildRow_keys_aux :
    ∀ (ps : List (CsvField × CsvField)) (r₀ : List (CsvField × CsvField)) (k : CsvField),
      (k ∈ (ps.foldl (fun r p => assocSet r (trimSpace p.1) (trimSpace p.2)) r₀).map (·.1)) ↔
        k ∈ r₀.map (·.1) ∨ k ∈ ps.map (fun p => trimSpace p.1)
  | [], r₀, k => by simp
  | p :: ps, r₀, k => by
    simp only [List.foldl_cons, List.map_cons, List.mem_cons]
    rw [buildRow_keys_aux ps _ k, assocSet_keys]
    tauto

/-- The key set of a row is exactly the trimmed header names. -/
theorem buildRow_keys (header rec : CsvRecord) (hlen : rec.length = header.length)
    (k : CsvField) :
    (k ∈ (buildRow header rec).map (·.1)) ↔ k ∈ header.map trimSpace := by
  unfold buildRow
  rw [buildRow_keys_aux]
  have hfst : (header.zip rec).map Prod.fst = header :=
    List.map_fst_zip header rec hlen.ge
  have : (header.zip rec).map (fun p => trimSpace p.1) = header.map trimSpace := by
    have := congrArg (List.map trimSpace) hfst
    rwa [List.map_map] at this
  rw [this]
  simp

theorem buildRow_trimmed_aux :
    ∀ (ps : List (CsvField × CsvField)) (r₀ : List (CsvField × CsvField)),
      (∀ p ∈ r₀, trimSpace p.1 = p.1 ∧ trimSpace p.2 = p.2) →
      ∀ p ∈ ps.foldl (fun r p => assocSet r (trimSpace p.1) (trimSpace p.2)) r₀,
        trimSpace p.1 = p.1 ∧ trimSpace p.2 = p.2
  | [], r₀, h => h
  | p :: ps, r₀, h => by
    simp only [List.foldl_cons]
    refine buildRow_trimmed_aux ps _ ?_
    exact assocSet_values _ _ _ _ h ⟨trimSpace_idem p.1, trimSpace_idem p.2⟩

/-- Every key and every cell value stored in a row is whitespace-trimmed. -/
theorem buildRow_trimmed (header rec : CsvRecord) :
    ∀ p ∈ buildRow header rec, trimSpace p.1 = p.1 ∧ trimSpace p.2 = p.2 :=
  buildRow_trimmed_aux _ [] (by intro p hp; simp at hp)

theorem buildRows_all_ok (header : CsvRecord) :
    ∀ recs : List CsvRecord, (∀ r ∈ recs, r.length = header.length) →
      buildRows header recs = .ok (recs.map (buildRow header))
  | [], _ => rfl
  | rec :: recs, h => by
    simp only [buildRows]
    rw [if_neg (by simp [h rec (by simp)])]
    rw [buildRows_all_ok header recs (fun r hr => h r (by simp [hr]))]
    rfl

/-! ## parseCSVData: success and field-count-mismatch characterization -/

theorem parseCSVData_ok_of_records (csv : List Char) (h : CsvRecord)
    (rs : List CsvRecord) (hrecs : csvRecords csv = .ok (h :: rs))
    (hall : ∀ r ∈ rs, r.length = h.length) :
    parseCSVData csv = .ok (rs.map (buildRow h)) := by
  unfold csvRecords at hrecs
  obtain ⟨rest, h₁, h₂⟩ := readAllAux_decomp _ h rs hrecs
  unfold parseCSVData
  rw [h₁]
  simp only []
  unfold readAllEnforce
  rw [readAllNAux_of_ok h.length rest [] none rs h₂ hall]
  simp only []
  exact buildRows_all_ok h rs hall

theorem parseCSVData_err_of_mismatch (csv : List Char) (h : CsvRecord)
    (rs : List CsvRecord) (hrecs : csvRecords csv = .ok (h :: rs))
    (hex : ∃ r ∈ rs, r.length ≠ h.length) :
    parseCSVData csv = .error (.recordsError .fieldCount) := by
  unfold csvRecords at hrecs
  obtain ⟨rest, h₁, h₂⟩ := readAllAux_decomp _ h rs hrecs
  unfold parseCSVData
  rw [h₁]
  simp only []
  unfold readAllEnforce
  rw [readAllNAux_of_mismatch h.length rest [] none rs h₂ (by intro r hr; simp at hr) hex]

/-! ## Lookup-fallback lemmas -/

theorem scanRules_notFound (id : String) :
    ∀ rules : List JObj,
      (∀ r ∈ rules, ∀ s, jlookup r "id" = some (.jstr s) → s ≠ id) →
      scanRules id rules = .fail (notFoundMsg id)
  | [], _ => rfl
  | r :: rest, h => by
    have hrest := scanRules_notFound id rest (fun r' hr' => h r' (by simp [hr']))
    simp only [scanRules]
    cases hl : jlookup r "id" with
    | none => exact hrest
    | some v =>
      cases v with
      | jstr rid =>
        show (if rid = id then GetOutcome.found r else scanRules id rest) = _
        rw [if_neg (h r (by simp) rid hl)]
        exact hrest
      | jnum n => exact hrest
      | jbool b => exact hrest
      | jnull => exact hrest
      | jarr xs => exact hrest
      | jobj fs => exact hrest

/-- The not-found message is distinguishable from every transport-failure
message (they differ from the first character on). -/
theorem notFoundMsg_ne_listFailMsg (id e : String) : notFoundMsg id ≠ listFailMsg e := by
  intro heq
  have h := congrArg (fun t => t.data.head?) heq
  have h₁ : (notFoundMsg id).data.head? = some 'm' := rfl
  have h₂ : (listFailMsg e).data.head? = some 'f' := rfl
  simp only [h₁, h₂] at h
  simp at h

/-! ## Create response-application lemmas -/

theorem applyPass1_csvData (st : MRState) (resp : JObj) :
    (applyPass1 st resp).csvData = st.csvData := by
  unfold applyPass1
  repeat' split
  all_goals rfl

theorem applyMatchersCreate_csvData (st : MRState) (resp : JObj) :
    (applyMatchersCreate st resp).csvData = st.csvData := by
  unfold applyMatchersCreate
  repeat' split
  all_goals rfl

theorem applyCsv1_none (st : MRState) (resp : JObj)
    (h : jlookup resp "csv_data" = none) : applyCsv1 st resp = st := by
  unfold applyCsv1
  rw [h]

theorem applyCsv2_none (st : MRState) (resp : JObj)
    (h : jlookup resp "csv_data" = none) : applyCsv2 st resp = st := by
  unfold applyCsv2
  rw [h]

theorem applyPass2_spec (st : MRState) (resp : JObj) (i nm d : String) (p : Int)
    (hid : jlookup resp "id" = some (.jstr i))
    (hname : jlookup resp "name" = some (.jstr nm))
    (hdesc : jlookup resp "description" = some (.jstr d))
    (hprio : jlookup resp "priority" = some (.jnum p)) :
    (applyPass2 st resp).id = i ∧ (applyPass2 st resp).name = nm ∧
      (applyPass2 st resp).description = d ∧ (applyPass2 st resp).priority = p ∧
      (applyPass2 st resp).csvData = st.csvData := by
  unfold applyPass2
  rw [hid, hname, hdesc, hprio]
  dsimp only []
  split <;> simp

/-! # Claim theorems -/

/-- C1: updating a mapping rule is executed as a DELETE of the existing rule
followed by a POST creating a new rule; after a successful update the
returned identifier is the one produced by the create call, and — since the
server only issues fresh identifiers — it differs from the identifier held
before the update. -/
theorem claim_C1_update_recreates_id (s : KeepServer) (id : Nat) (payload : JObj)
    (out : Nat × KeepServer)
    (hfresh : ∀ i ∈ serverIds s, i < s.nextId)
    (hupd : updateMappingRuleClient s id payload = .ok out) :
    (∃ s', serverDeleteMappingRule s id = .ok s' ∧
        out = serverCreateMappingRule s' payload) ∧
      out.1 ≠ id := by
  unfold updateMappingRuleClient at hupd
  cases hdel : serverDeleteMappingRule s id with
  | error e => rw [hdel] at hupd; simp at hupd
  | ok s' =>
    rw [hdel] at hupd
    simp only [] at hupd
    have hout : out = serverCreateMappingRule s' payload := by
      cases hupd; rfl
    refine ⟨⟨s', rfl, hout⟩, ?_⟩
    have hid : id ∈ serverIds s := by
      by_contra hmem
      unfold serverDeleteMappingRule at hdel
      rw [if_neg hmem] at hdel
      simp at hdel
    have hnext : s'.nextId = s.nextId := by
      unfold serverDeleteMappingRule at hdel
      rw [if_pos hid] at hdel
      cases hdel; rfl
    have hlt := hfresh id hid
    rw [hout]
    unfold serverCreateMappingRule
    show s'.nextId ≠ id
    omega

theorem claim_C1_witness :
    (∃ s', serverDeleteMappingRule ⟨[(0, [])], 1⟩ 0 = .ok s' ∧
        ((1, ⟨[(1, [])], 2⟩) : Nat × KeepServer) = serverCreateMappingRule s' []) ∧
      (((1, ⟨[(1, [])], 2⟩) : Nat × KeepServer)).1 ≠ 0 :=
  claim_C1_update_recreates_id ⟨[(0, [])], 1⟩ 0 [] (1, ⟨[(1, [])], 2⟩)
    (by decide) rfl

/-- C2 counterexample: the normalization (trim, then replace each "\r\n" by
"\n") is not idempotent as claimed: on "a\r\r\nb" the first pass produces
"a\r\nb", whose second pass produces "a\nb". -/
theorem claim_C2_counterexample :
    ¬ (normalizeCSV (normalizeCSV ('a' :: '\r' :: '\r' :: '\n' :: 'b' :: [])) =
        normalizeCSV ('a' :: '\r' :: '\r' :: '\n' :: 'b' :: [])) := by decide

/-- C2 (amended): the normalization is idempotent on every input whose
trimmed text contains no "\r\r\n" — replacing such an overlapping
occurrence is the only way one pass can leave a fresh "\r\n" behind. -/
theorem claim_C2_amended_idempotent (l : List Char)
    (h : hasCRRLF (trimSpace l) = false) :
    normalizeCSV (normalizeCSV l) = normalizeCSV l :=
  normalizeCSV_idem_of_no_crrlf l h

theorem claim_C2_witness :
    hasCRRLF (trimSpace (' ' :: 'a' :: '\r' :: '\n' :: 'b' :: [])) = false ∧
      normalizeCSV (normalizeCSV (' ' :: 'a' :: '\r' :: '\n' :: 'b' :: [])) =
        normalizeCSV (' ' :: 'a' :: '\r' :: '\n' :: 'b' :: []) :=
  ⟨by decide, claim_C2_amended_idempotent _ (by decide)⟩

/-- C3: a mapping-rule configuration whose csv_data has a data row with a
field count different from the header's fails Create (and Update) with a
validation error, and neither operation issues any network call. -/
theorem claim_C3_validation_before_network (plan : MRPlan) (stateId : String)
    (s : String) (h : CsvRecord) (rs : List CsvRecord) (r : CsvRecord)
    (hcsv : plan.csvData = .known s)
    (hrecs : csvRecords s.data = .ok (h :: rs))
    (hr : r ∈ rs) (hlen : r.length ≠ h.length) :
    (∃ e, mappingRuleCreate plan = .validationError e) ∧
      createNetworkCalls (mappingRuleCreate plan) = [] ∧
      (∃ e, mappingRuleUpdate (some stateId) plan = .validationError e) ∧
      updateNetworkCalls (mappingRuleUpdate (some stateId) plan) = [] := by
  have hparse := parseCSVData_err_of_mismatch s.data h rs hrecs ⟨r, hr, hlen⟩
  have hcreate : mappingRuleCreate plan = .validationError (.recordsError .fieldCount) := by
    unfold mappingRuleCreate
    rw [hcsv]
    simp only []
    rw [hparse]
  have hs : s ≠ "" := by
    intro hse
    rw [hse] at hrecs
    simp [csvRecords, splitLines, splitLinesAux, readAllAux] at hrecs
  have hupdate : mappingRuleUpdate (some stateId) plan =
      .validationError (.recordsError .fieldCount) := by
    unfold mappingRuleUpdate
    rw [hcsv]
    simp only []
    rw [if_pos hs, hparse]
  exact ⟨⟨_, hcreate⟩, by rw [hcreate]; rfl, ⟨_, hupdate⟩, by rw [hupdate]; rfl⟩

theorem claim_C3_witness :
    (∃ e, mappingRuleCreate ⟨"n", "", 0, [], .known "a,b\n1,2,3"⟩ = .validationError e) ∧
      createNetworkCalls (mappingRuleCreate ⟨"n", "", 0, [], .known "a,b\n1,2,3"⟩) = [] ∧
      (∃ e, mappingRuleUpdate (some "id1") ⟨"n", "", 0, [], .known "a,b\n1,2,3"⟩ =
        .validationError e) ∧
      updateNetworkCalls (mappingRuleUpdate (some "id1") ⟨"n", "", 0, [], .known "a,b\n1,2,3"⟩) = [] :=
  claim_C3_validation_before_network ⟨"n", "", 0, [], .known "a,b\n1,2,3"⟩ "id1"
    "a,b\n1,2,3" ["a".data, "b".data] [["1".data, "2".data, "3".data]]
    ["1".data, "2".data, "3".data] rfl rfl (by simp) (by decide)

/-- C4: reading a mapping rule whose id is absent from the direct-lookup
endpoint and from the full list yields the distinguished not-found error,
whose message differs from every transport-failure message of the list
path. -/
theorem claim_C4_notfound_distinguished (id : String) (e₀ : String)
    (dec : List Char → Option JObj) (rules : List JObj)
    (hscan : ∀ r ∈ rules, ∀ s, jlookup r "id" = some (.jstr s) → s ≠ id) :
    getMappingRule id (.error e₀) dec (.ok rules) = .fail (notFoundMsg id) ∧
      ∀ e, notFoundMsg id ≠ listFailMsg e := by
  constructor
  · unfold getMappingRule listFallback
    exact scanRules_notFound id rules hscan
  · exact fun e => notFoundMsg_ne_listFailMsg id e

theorem claim_C4_witness :
    getMappingRule "42" (.error "connection refused") (fun _ => none)
        (.ok [[("id", .jstr "1")], [("name", .jstr "x")]]) = .fail (notFoundMsg "42") ∧
      ∀ e, notFoundMsg "42" ≠ listFailMsg e :=
  claim_C4_notfound_distinguished "42" "connection refused" (fun _ => none)
    [[("id", .jstr "1")], [("name", .jstr "x")]]
    (by
      intro r hr s hs
      simp at hr
      rcases hr with hr | hr <;> rw [hr] at hs <;> simp [jlookup] at hs
      rw [← hs]
      decide)

/-- C5: contrary to the claim (and to the schema's own descriptions), the
provider configuration takes no fallback from the KEEP_API_KEY /
KEEP_API_URL environment variables: Configure is invariant under changes
of the environment, and with both configuration values absent it yields
the empty API key and the default URL even when both variables are set. -/
theorem claim_C5_env_never_consulted :
    (∀ (cfg : ProviderConfig) (env env' : String → Option String),
        configureProvider cfg env = configureProvider cfg env') ∧
      configureProvider ⟨.null, .null⟩
          (fun n => if n = "KEEP_API_KEY" then some "key-from-env"
            else if n = "KEEP_API_URL" then some "http://env.example" else none) =
        .ok ⟨"", "http://localhost:8080"⟩ :=
  ⟨fun _ _ _ => rfl, rfl⟩

/-- C6: contrary to the claim, the decoders do not check every dynamic type
before use: the alert decoder panics on a response missing `id` (or with a
non-string `id`), and the extraction-rule create decoder panics on a
response missing `id` or carrying it as a string instead of a number. -/
theorem claim_C6_decoders_panic :
    fromClientAlert [] = .panicked ∧
      fromClientAlert [("id", .jnum 7)] = .panicked ∧
      extractionCreateDecode ⟨"", "", "", 0, false, false, "", "", ""⟩ [] = .panicked ∧
      extractionCreateDecode ⟨"", "", "", 0, false, false, "", "", ""⟩
        [("id", .jstr "7"), ("name", .jstr "r1")] = .panicked :=
  ⟨rfl, rfl, rfl, rfl⟩

/-- C7: when a CSV text splits into header record H and data records rs,
parseCSVData succeeds exactly on texts whose data records all have H's
field count, producing one row per data record, keyed by the trimmed
column names of H with trimmed cell values; a record of any other field
count fails parsing with the field-count error (nothing is padded or
truncated). -/
theorem claim_C7_parse_shape (csv : List Char) (h : CsvRecord) (rs : List CsvRecord)
    (hrecs : csvRecords csv = .ok (h :: rs)) :
    ((∀ r ∈ rs, r.length = h.length) →
      parseCSVData csv = .ok (rs.map (buildRow h)) ∧
        (rs.map (buildRow h)).length = rs.length ∧
        (∀ row ∈ rs.map (buildRow h),
          (∀ k, (k ∈ row.map (·.1)) ↔ k ∈ h.map trimSpace) ∧
            ∀ p ∈ row, trimSpace p.1 = p.1 ∧ trimSpace p.2 = p.2)) ∧
      ((∃ r ∈ rs, r.length ≠ h.length) →
        parseCSVData csv = .error (.recordsError .fieldCount)) := by
  constructor
  · intro hall
    refine ⟨parseCSVData_ok_of_records csv h rs hrecs hall, List.length_map _ _, ?_⟩
    intro row hrow
    obtain ⟨rec, hrec, hbuild⟩ := List.mem_map.mp hrow
    subst hbuild
    exact ⟨fun k => buildRow_keys h rec (hall rec hrec) k, buildRow_trimmed h rec⟩
  · intro hex
    exact parseCSVData_err_of_mismatch csv h rs hrecs hex

theorem claim_C7_witness :
    parseCSVData "a,b\n1,2\n3,4".data =
      .ok ([["1".data, "2".data], ["3".data, "4".data]].map
        (buildRow ["a".data, "b".data])) ∧
    ([["1".data, "2".data], ["3".data, "4".data]].map
        (buildRow ["a".data, "b".data])).length =
      ([["1".data, "2".data], ["3".data, "4".data]] : List CsvRecord).length ∧
    (∀ row ∈ [["1".data, "2".data], ["3".data, "4".data]].map
        (buildRow ["a".data, "b".data]),
      (∀ k, (k ∈ row.map (·.1)) ↔ k ∈ ["a".data, "b".data].map trimSpace) ∧
        ∀ p ∈ row, trimSpace p.1 = p.1 ∧ trimSpace p.2 = p.2) :=
  (claim_C7_parse_shape "a,b\n1,2\n3,4".data ["a".data, "b".data]
    [["1".data, "2".data], ["3".data, "4".data]] rfl).1 (by decide)

/-- C8: the provider schema declares the `type` attribute with replace
semantics (RequiresReplace), and the in-place update request body never
contains a `type` field. -/
theorem claim_C8_type_immutable :
    ((providerResourceSchema.find? (fun a => a.name == "type")).map
        (fun a => a.requiresReplace) = some true) ∧
      ∀ plan : ProviderPlan, jlookup (updateProviderBody plan) "type" = none := by
  refine ⟨rfl, ?_⟩
  intro plan
  unfold updateProviderBody
  by_cases hn : plan.name = "" <;> by_cases hc : plan.config.isEmpty <;>
    simp [hn, hc, jlookup]

/-- C9: when the create response omits csv_data, the plan's csv_data value
is preserved unchanged in the resulting state, while id, name, description
and priority present in the response overwrite the plan values. -/
theorem claim_C9_omitted_csv_preserved (plan : MRState) (resp : JObj)
    (i nm d : String) (p : Int)
    (hcsv : jlookup resp "csv_data" = none)
    (hid : jlookup resp "id" = some (.jstr i))
    (hname : jlookup resp "name" = some (.jstr nm))
    (hdesc : jlookup resp "description" = some (.jstr d))
    (hprio : jlookup resp "priority" = some (.jnum p)) :
    (mappingRuleCreateApply plan resp).csvData = plan.csvData ∧
      (mappingRuleCreateApply plan resp).id = i ∧
      (mappingRuleCreateApply plan resp).name = nm ∧
      (mappingRuleCreateApply plan resp).description = d ∧
      (mappingRuleCreateApply plan resp).priority = p := by
  unfold mappingRuleCreateApply
  rw [applyCsv2_none _ _ hcsv, applyCsv1_none _ _ hcsv]
  obtain ⟨h₁, h₂, h₃, h₄, h₅⟩ :=
    applyPass2_spec (applyMatchersCreate (applyPass1 plan resp) resp) resp
      i nm d p hid hname hdesc hprio
  refine ⟨?_, h₁, h₂, h₃, h₄⟩
  rw [h₅, applyMatchersCreate_csvData, applyPass1_csvData]

theorem claim_C9_witness :
    (mappingRuleCreateApply
        ⟨"old-id", "old-name", "old-desc", 1, false, none, .known "x,y\n1,2"⟩
        [("id", .jstr "9"), ("name", .jstr "n2"),
          ("description", .jstr "d2"), ("priority", .jnum 5)]).csvData =
      TfVal.known "x,y\n1,2" ∧
    (mappingRuleCreateApply
        ⟨"old-id", "old-name", "old-desc", 1, false, none, .known "x,y\n1,2"⟩
        [("id", .jstr "9"), ("name", .jstr "n2"),
          ("description", .jstr "d2"), ("priority", .jnum 5)]).id = "9" ∧
    (mappingRuleCreateApply
        ⟨"old-id", "old-name", "old-desc", 1, false, none, .known "x,y\n1,2"⟩
        [("id", .jstr "9"), ("name", .jstr "n2"),
          ("description", .jstr "d2"), ("priority", .jnum 5)]).name = "n2" ∧
    (mappingRuleCreateApply
        ⟨"old-id", "old-name", "old-desc", 1, false, none, .known "x,y\n1,2"⟩
        [("id", .jstr "9"), ("name", .jstr "n2"),
          ("description", .jstr "d2"), ("priority", .jnum 5)]).description = "d2" ∧
    (mappingRuleCreateApply
        ⟨"old-id", "old-name", "old-desc", 1, false, none, .known "x,y\n1,2"⟩
        [("id", .jstr "9"), ("name", .jstr "n2"),
          ("description", .jstr "d2"), ("priority", .jnum 5)]).priority = 5 :=
  claim_C9_omitted_csv_preserved
    ⟨"old-id", "old-name", "old-desc", 1, false, none, .known "x,y\n1,2"⟩
    [("id", .jstr "9"), ("name", .jstr "n2"),
      ("description", .jstr "d2"), ("priority", .jnum 5)]
    "9" "n2" "d2" 5 rfl rfl rfl rfl rfl

/-- C10: contrary to the claim, GetMappingRule is not total over the
outcomes of its two phases: when the direct GET succeeds but its body
fails to unmarshal as a JSON object, the fallback logging path formats
the nil direct-lookup error with err.Error() and panics instead of
proceeding to the list-and-scan fallback. -/
theorem claim_C10_nil_error_panic :
    getMappingRule "abc" (.ok "[]".data) (fun _ => none) (.ok []) = .nilPanic := rfl
